import Mathlib

/-!
Shallow embedding of the Receipt Manager of `core/primitives/src/receipt_manager.rs`
and verification of its specification.

Modelling conventions:
* Rust `u64`/`usize`/`u128` become `Nat` (the casts `receipt_index as usize` are
  lossless on the 64-bit targets the runtime supports).
* `&mut self` methods returning `Result<T, E>` become functions
  `ReceiptManager → ... → ReceiptManager × Except HostError T`: the returned
  state is whatever the mutable borrow left behind, also on the error path.
* A Rust panic (`.expect(...)`) is a distinct outcome, modelled by `Option`
  with `none` for the panic.
* The externally supplied decoders `PublicKey::try_from_slice` and
  `String::from_utf8` live outside this file's sources; the embedding is
  parametric in them (an `Env` record), so every theorem holds for an
  arbitrary decoder.
* The `protocol_feature_function_call_weight` feature is taken as enabled:
  the `gas_weights` field and `append_action_function_call_weight` are present.
-/

deriving instance DecidableEq for Except

namespace NearPrimitives

/-- An opaque 32-byte content identifier (`CryptoHash`). -/
structure CryptoHash where
  bytes : List UInt8
deriving DecidableEq

/-- `CryptoHash::default()`: the all-zero hash, used by the source as the
placeholder data id (`let data_id = CryptoHash::default();` next to a `TODO`). -/
def CryptoHash.default : CryptoHash := ⟨List.replicate 32 0⟩

/-- Account identifier; an externally validated string type. -/
abbrev AccountId := String

/-- A decoded public key (`near_crypto::PublicKey`); opaque to this component,
only produced by the external decoder. -/
structure PublicKey where
  bytes : List UInt8
deriving DecidableEq

/-- `DataReceiver { data_id, receiver_id }`. -/
structure DataReceiver where
  data_id : CryptoHash
  receiver_id : AccountId
deriving DecidableEq

/-- `FunctionCallPermission { allowance, receiver_id, method_names }`. -/
structure FunctionCallPermission where
  allowance : Option Nat
  receiver_id : AccountId
  method_names : List String
deriving DecidableEq

/-- `AccessKeyPermission`: full access or a restricted function-call grant. -/
inductive AccessKeyPermission where
  | FullAccess
  | FunctionCall (p : FunctionCallPermission)
deriving DecidableEq

/-- `AccessKey { nonce, permission }`. -/
structure AccessKey where
  nonce : Nat
  permission : AccessKeyPermission
deriving DecidableEq

/-- The `Action` sum type: one constructor per action kind, with the fields of
the corresponding `*Action` struct. -/
inductive Action where
  | CreateAccount
  | DeployContract (code : List UInt8)
  | FunctionCall (method_name : String) (args : List UInt8) (gas : Nat) (deposit : Nat)
  | Transfer (deposit : Nat)
  | Stake (stake : Nat) (public_key : PublicKey)
  | AddKey (public_key : PublicKey) (access_key : AccessKey)
  | DeleteKey (public_key : PublicKey)
  | DeleteAccount (beneficiary_id : AccountId)
deriving DecidableEq

/-- The three `HostError` variants raised by the receipt manager. -/
inductive HostError where
  | InvalidReceiptIndex (receipt_index : Nat)
  | InvalidMethodName
  | InvalidPublicKey
deriving DecidableEq

/-- `ReceiptMetadata { output_data_receivers, input_data_ids, actions }`. -/
structure ReceiptMetadata where
  output_data_receivers : List DataReceiver
  input_data_ids : List CryptoHash
  actions : List Action
deriving DecidableEq

/-- `FunctionCallActionIndex { receipt_index, action_index }`, the key of a
gas-weight entry. -/
structure FunctionCallActionIndex where
  receipt_index : Nat
  action_index : Nat
deriving DecidableEq

/-- `ReceiptManager { action_receipts, gas_weights }`. `gas_weights` is the
`Vec` of `(FunctionCallActionIndex, GasWeight)` pairs; `GasWeight` is a `u64`
newtype, modelled as `Nat`. -/
structure ReceiptManager where
  action_receipts : List (AccountId × ReceiptMetadata)
  gas_weights : List (FunctionCallActionIndex × Nat)
deriving DecidableEq

/-- The fresh, empty manager created for one execution (`Default`). -/
def ReceiptManager.empty : ReceiptManager := ⟨[], []⟩

/-- The external collaborators the append operations consume:
`PublicKey::try_from_slice` and `String::from_utf8`, each failing on malformed
input. Their internals are outside this component; the embedding is parametric
in them. -/
structure Env where
  try_from_slice : List UInt8 → Option PublicKey
  from_utf8 : List UInt8 → Option String

/-- `ReceiptManager::get_receipt_receiver`: read-only lookup of the receiver
recorded at an index (a `&self` method; here a pure function of the state). -/
def ReceiptManager.get_receipt_receiver (s : ReceiptManager) (receipt_index : Nat) :
    Option AccountId :=
  (s.action_receipts[receipt_index]?).map Prod.fst

/-- `ReceiptManager::append_action`. The source does
`.get_mut(receipt_index as usize).expect("receipt index should be present")`:
an out-of-range index is a panic, modelled as `none`. On success the action is
pushed and the index it was inserted at (`actions.len() - 1`) is returned. -/
def ReceiptManager.append_action (s : ReceiptManager) (receipt_index : Nat)
    (action : Action) : Option (ReceiptManager × Nat) :=
  match s.action_receipts[receipt_index]? with
  | none => none
  | some (id, md) =>
    let actions := md.actions ++ [action]
    some ({ s with action_receipts :=
              s.action_receipts.set receipt_index (id, { md with actions := actions }) },
          actions.length - 1)

/-- The mutation step at lines 106–111 of the source: push
`DataReceiver { data_id, receiver_id }` onto predecessor `i`'s
`output_data_receivers`, where `(id, md)` is that predecessor's entry. -/
def ReceiptManager.push_data_receiver (s : ReceiptManager) (i : Nat)
    (id : AccountId) (md : ReceiptMetadata) (data_id : CryptoHash)
    (receiver_id : AccountId) : ReceiptManager :=
  let entry := (id, { md with output_data_receivers :=
                        md.output_data_receivers ++ [⟨data_id, receiver_id⟩] })
  { s with action_receipts := s.action_receipts.set i entry }

/-- The predecessor loop of `ReceiptManager::create_receipt`: for each listed
index in order, mints the (placeholder) data id, pushes a `DataReceiver` onto
that predecessor's `output_data_receivers` and collects the id; the first
invalid index aborts with `InvalidReceiptIndex`, leaving the mutations already
made by earlier iterations in place (the `?` operator returns through `&mut
self`). -/
def ReceiptManager.create_receipt_loop (s : ReceiptManager)
    (receiver_id : AccountId) (input_data_ids : List CryptoHash) :
    List Nat → ReceiptManager × Except HostError (List CryptoHash)
  | [] => (s, .ok input_data_ids)
  | receipt_index :: rest =>
    let data_id := CryptoHash.default
    match s.action_receipts[receipt_index]? with
    | none => (s, .error (.InvalidReceiptIndex receipt_index))
    | some (id, md) =>
      create_receipt_loop (s.push_data_receiver receipt_index id md data_id receiver_id)
        receiver_id (input_data_ids ++ [data_id]) rest

/-- `ReceiptManager::create_receipt`: runs the predecessor loop, then pushes a
new `ReceiptMetadata` with empty `output_data_receivers` and `actions` and the
collected `input_data_ids`, returning the pre-push length as the new index. -/
def ReceiptManager.create_receipt (s : ReceiptManager) (receipt_indices : List Nat)
    (receiver_id : AccountId) : ReceiptManager × Except HostError Nat :=
  match s.create_receipt_loop receiver_id [] receipt_indices with
  | (s', .error e) => (s', .error e)
  | (s', .ok input_data_ids) =>
    let new_receipt : ReceiptMetadata := ⟨[], input_data_ids, []⟩
    let new_receipt_index := s'.action_receipts.length
    ({ s' with action_receipts := s'.action_receipts ++ [(receiver_id, new_receipt)] },
     .ok new_receipt_index)

/-- `ReceiptManager::append_action_create_account`. -/
def ReceiptManager.append_action_create_account (s : ReceiptManager)
    (receipt_index : Nat) : Option (ReceiptManager × Except HostError Unit) :=
  (s.append_action receipt_index .CreateAccount).map (fun p => (p.1, .ok ()))

/-- `ReceiptManager::append_action_deploy_contract`. -/
def ReceiptManager.append_action_deploy_contract (s : ReceiptManager)
    (receipt_index : Nat) (code : List UInt8) :
    Option (ReceiptManager × Except HostError Unit) :=
  (s.append_action receipt_index (.DeployContract code)).map (fun p => (p.1, .ok ()))

/-- `ReceiptManager::append_action_function_call_weight`: same validation and
construction as the plain variant, and when `gas_weight.0 > 0` additionally
records `(FunctionCallActionIndex { receipt_index, action_index }, gas_weight)`
in `gas_weights`. The method name is decoded while constructing the argument of
`append_action`, so an invalid name errors before any mutation. -/
def ReceiptManager.append_action_function_call_weight (env : Env) (s : ReceiptManager)
    (receipt_index : Nat) (method_name args : List UInt8)
    (attached_deposit prepaid_gas gas_weight : Nat) :
    Option (ReceiptManager × Except HostError Unit) :=
  match env.from_utf8 method_name with
  | none => some (s, .error .InvalidMethodName)
  | some mn =>
    match s.append_action receipt_index
        (.FunctionCall mn args prepaid_gas attached_deposit) with
    | none => none
    | some (s', action_index) =>
      if gas_weight > 0 then
        some ({ s' with gas_weights :=
                  s'.gas_weights ++ [(⟨receipt_index, action_index⟩, gas_weight)] },
              .ok ())
      else
        some (s', .ok ())

/-- `ReceiptManager::append_action_function_call`: decodes the method name
(`String::from_utf8`, failing with `InvalidMethodName` before any mutation),
then appends a `FunctionCall` action whose `gas` is the literal `prepaid_gas`. -/
def ReceiptManager.append_action_function_call (env : Env) (s : ReceiptManager)
    (receipt_index : Nat) (method_name args : List UInt8)
    (attached_deposit prepaid_gas : Nat) :
    Option (ReceiptManager × Except HostError Unit) :=
  match env.from_utf8 method_name with
  | none => some (s, .error .InvalidMethodName)
  | some mn =>
    (s.append_action receipt_index
        (.FunctionCall mn args prepaid_gas attached_deposit)).map
      (fun p => (p.1, .ok ()))

/-- `ReceiptManager::append_action_transfer`. -/
def ReceiptManager.append_action_transfer (s : ReceiptManager)
    (receipt_index : Nat) (deposit : Nat) :
    Option (ReceiptManager × Except HostError Unit) :=
  (s.append_action receipt_index (.Transfer deposit)).map (fun p => (p.1, .ok ()))

/-- `ReceiptManager::append_action_stake`: decodes the public key, failing with
`InvalidPublicKey` before any mutation. -/
def ReceiptManager.append_action_stake (env : Env) (s : ReceiptManager)
    (receipt_index : Nat) (stake : Nat) (public_key : List UInt8) :
    Option (ReceiptManager × Except HostError Unit) :=
  match env.try_from_slice public_key with
  | none => some (s, .error .InvalidPublicKey)
  | some pk =>
    (s.append_action receipt_index (.Stake stake pk)).map (fun p => (p.1, .ok ()))

/-- `ReceiptManager::append_action_add_key_with_full_access`. -/
def ReceiptManager.append_action_add_key_with_full_access (env : Env) (s : ReceiptManager)
    (receipt_index : Nat) (public_key : List UInt8) (nonce : Nat) :
    Option (ReceiptManager × Except HostError Unit) :=
  match env.try_from_slice public_key with
  | none => some (s, .error .InvalidPublicKey)
  | some pk =>
    (s.append_action receipt_index (.AddKey pk ⟨nonce, .FullAccess⟩)).map
      (fun p => (p.1, .ok ()))

/-- The `method_names.into_iter().map(String::from_utf8).collect::<Result<..>>`
step of `append_action_add_key_with_function_call`: decodes every entry, failing
at the first invalid one. -/
def Env.decode_method_names (env : Env) : List (List UInt8) → Except HostError (List String)
  | [] => .ok []
  | mn :: rest =>
    match env.from_utf8 mn with
    | none => .error .InvalidMethodName
    | some m => (env.decode_method_names rest).map (fun l => m :: l)

/-- `ReceiptManager::append_action_add_key_with_function_call`: decodes the
public key first (the struct fields are evaluated in order), then every method
name; any failure errors before any mutation. -/
def ReceiptManager.append_action_add_key_with_function_call (env : Env) (s : ReceiptManager)
    (receipt_index : Nat) (public_key : List UInt8) (nonce : Nat)
    (allowance : Option Nat) (receiver_id : AccountId)
    (method_names : List (List UInt8)) :
    Option (ReceiptManager × Except HostError Unit) :=
  match env.try_from_slice public_key with
  | none => some (s, .error .InvalidPublicKey)
  | some pk =>
    match env.decode_method_names method_names with
    | .error e => some (s, .error e)
    | .ok names =>
      (s.append_action receipt_index
          (.AddKey pk ⟨nonce, .FunctionCall ⟨allowance, receiver_id, names⟩⟩)).map
        (fun p => (p.1, .ok ()))

/-- `ReceiptManager::append_action_delete_key`. -/
def ReceiptManager.append_action_delete_key (env : Env) (s : ReceiptManager)
    (receipt_index : Nat) (public_key : List UInt8) :
    Option (ReceiptManager × Except HostError Unit) :=
  match env.try_from_slice public_key with
  | none => some (s, .error .InvalidPublicKey)
  | some pk =>
    (s.append_action receipt_index (.DeleteKey pk)).map (fun p => (p.1, .ok ()))

/-- `ReceiptManager::append_action_delete_account`. -/
def ReceiptManager.append_action_delete_account (s : ReceiptManager)
    (receipt_index : Nat) (beneficiary_id : AccountId) :
    Option (ReceiptManager × Except HostError Unit) :=
  (s.append_action receipt_index (.DeleteAccount beneficiary_id)).map
    (fun p => (p.1, .ok ()))

/-! State accessors used in theorem statements. -/

/-- The receiver column of `action_receipts`, in index order. -/
def receiversOf (s : ReceiptManager) : List AccountId := s.action_receipts.map Prod.fst

/-- The `actions` list of the receipt at an index (`[]` when out of range). -/
def actionsAt (s : ReceiptManager) (i : Nat) : List Action :=
  match s.action_receipts[i]? with
  | some (_, md) => md.actions
  | none => []

/-- The `output_data_receivers` list of the receipt at an index. -/
def outputAt (s : ReceiptManager) (i : Nat) : List DataReceiver :=
  match s.action_receipts[i]? with
  | some (_, md) => md.output_data_receivers
  | none => []

/-- The `input_data_ids` list of the receipt at an index. -/
def inputAt (s : ReceiptManager) (i : Nat) : List CryptoHash :=
  match s.action_receipts[i]? with
  | some (_, md) => md.input_data_ids
  | none => []

/-! The host-call stream: one `ReceiptManager` per execution, mutated by a
strictly sequential list of operations. -/

/-- One host call into the manager, one constructor per public operation. -/
inductive Op where
  | createReceipt (receipt_indices : List Nat) (receiver_id : AccountId)
  | createAccount (receipt_index : Nat)
  | deployContract (receipt_index : Nat) (code : List UInt8)
  | functionCall (receipt_index : Nat) (method_name args : List UInt8) (deposit gas : Nat)
  | functionCallWeight (receipt_index : Nat) (method_name args : List UInt8)
      (deposit gas weight : Nat)
  | transfer (receipt_index : Nat) (deposit : Nat)
  | stake (receipt_index : Nat) (stake : Nat) (public_key : List UInt8)
  | addKeyFullAccess (receipt_index : Nat) (public_key : List UInt8) (nonce : Nat)
  | addKeyFunctionCall (receipt_index : Nat) (public_key : List UInt8) (nonce : Nat)
      (allowance : Option Nat) (receiver_id : AccountId) (method_names : List (List UInt8))
  | deleteKey (receipt_index : Nat) (public_key : List UInt8)
  | deleteAccount (receipt_index : Nat) (beneficiary_id : AccountId)

/-- `true` for the `append_action_*` family, `false` for `create_receipt`. -/
def Op.isAppend : Op → Bool
  | .createReceipt .. => false
  | _ => true

/-- The `receipt_index` argument of an append operation (0 for `createReceipt`,
where it is unused). -/
def Op.target : Op → Nat
  | .createReceipt .. => 0
  | .createAccount i => i
  | .deployContract i _ => i
  | .functionCall i _ _ _ _ => i
  | .functionCallWeight i _ _ _ _ _ => i
  | .transfer i _ => i
  | .stake i _ _ => i
  | .addKeyFullAccess i _ _ => i
  | .addKeyFunctionCall i _ _ _ _ _ => i
  | .deleteKey i _ => i
  | .deleteAccount i _ => i

/-- Dispatch one host call to the corresponding manager method. The result is
`none` when the call panics, otherwise the successor state together with the
`Result` the method returned (its payload dropped). -/
def stepOp (env : Env) (s : ReceiptManager) :
    Op → Option (ReceiptManager × Except HostError Unit)
  | .createReceipt idxs rcv =>
    let r := s.create_receipt idxs rcv
    some (r.1, r.2.map (fun _ => ()))
  | .createAccount i => s.append_action_create_account i
  | .deployContract i code => s.append_action_deploy_contract i code
  | .functionCall i mn args dep gas => s.append_action_function_call env i mn args dep gas
  | .functionCallWeight i mn args dep gas w =>
    s.append_action_function_call_weight env i mn args dep gas w
  | .transfer i dep => s.append_action_transfer i dep
  | .stake i st pk => s.append_action_stake env i st pk
  | .addKeyFullAccess i pk n => s.append_action_add_key_with_full_access env i pk n
  | .addKeyFunctionCall i pk n allw rcv mns =>
    s.append_action_add_key_with_function_call env i pk n allw rcv mns
  | .deleteKey i pk => s.append_action_delete_key env i pk
  | .deleteAccount i b => s.append_action_delete_account i b

/-- Run a host-call stream from a state; `none` once any call panics. Errors
returned by a call leave the (possibly mutated) state in place and the stream
continues, as the dispatch layer may do. -/
def run (env : Env) : ReceiptManager → List Op → Option ReceiptManager
  | s, [] => some s
  | s, op :: ops =>
    match stepOp env s op with
    | none => none
    | some (s', _) => run env s' ops

/-- The receivers an operation registers by a successful receipt creation:
`[receiver_id]` for a succeeding `createReceipt`, `[]` otherwise. -/
def opCreated (s : ReceiptManager) : Op → List AccountId
  | .createReceipt idxs rcv =>
    match (s.create_receipt idxs rcv).2 with
    | .ok _ => [rcv]
    | .error _ => []
  | _ => []

/-- The receivers of the receipts created by a host-call stream, in creation
order (empty tail once a call panics). -/
def createdReceivers (env : Env) : ReceiptManager → List Op → List AccountId
  | _, [] => []
  | s, op :: ops =>
    match stepOp env s op with
    | none => []
    | some (s', _) => opCreated s op ++ createdReceivers env s' ops

/-- The gas-weight entries an operation records: a succeeding
`functionCallWeight` with strictly positive weight records one entry keyed by
its receipt index and the action index it appends at; every other call records
none. -/
def opWeightEntries (env : Env) (s : ReceiptManager) :
    Op → List (FunctionCallActionIndex × Nat)
  | .functionCallWeight i mn _ _ _ w =>
    match env.from_utf8 mn, s.action_receipts[i]? with
    | some _, some (_, md) => if w > 0 then [(⟨i, md.actions.length⟩, w)] else []
    | _, _ => []
  | _ => []

/-- The gas-weight entries recorded along a host-call stream, in call order. -/
def weightEntries (env : Env) : ReceiptManager → List Op → List (FunctionCallActionIndex × Nat)
  | _, [] => []
  | s, op :: ops =>
    match stepOp env s op with
    | none => []
    | some (s', _) => opWeightEntries env s op ++ weightEntries env s' ops

/-- A concrete environment used to instantiate theorems at test points: bytes
below 128 decode as the corresponding ASCII string, and a key decodes exactly
when it is 33 bytes long. -/
def testEnv : Env where
  try_from_slice := fun bs => if bs.length = 33 then some ⟨bs⟩ else none
  from_utf8 := fun bs =>
    if bs.all (fun b => b < 128) then some ⟨bs.map (fun b => Char.ofNat b.toNat)⟩ else none

/-! Generic list helpers. -/

/-- Writing back the value already stored at an index leaves the list unchanged. -/
theorem set_getElem?_self {α : Type} {l : List α} {i : Nat} {a : α}
    (h : l[i]? = some a) : l.set i a = l := by
  apply List.ext_getElem?
  intro j
  rcases eq_or_ne i j with rfl | hij
  · rw [List.getElem?_set_self', h]; rfl
  · rw [List.getElem?_set_ne hij]

/-- Pointwise description of `List.set` through `getElem?`. -/
theorem getElem?_set_entry {α : Type} {l : List α} {i : Nat} {a : α}
    (hi : i < l.length) (k : Nat) :
    (l.set i a)[k]? = if k = i then some a else l[k]? := by
  rcases eq_or_ne k i with rfl | h
  · simp [List.getElem?_set_self hi]
  · simp [List.getElem?_set_ne (Ne.symm h), h]

/-- Updating an entry of a pair list without changing its first component
preserves the `map Prod.fst` column. -/
theorem map_fst_set {α β : Type} {l : List (α × β)} {i : Nat} {a : α} {b b' : β}
    (h : l[i]? = some (a, b)) : (l.set i (a, b')).map Prod.fst = l.map Prod.fst := by
  rw [List.map_set]
  exact set_getElem?_self (by rw [List.getElem?_map, h]; rfl)

/-! Characterization of the low-level `append_action`. -/

/-- `append_action` on a present index pushes the action onto that entry and
returns the pre-push action count. -/
theorem append_action_eq_some {s : ReceiptManager} {i : Nat} {a : Action}
    {id : AccountId} {md : ReceiptMetadata} (h : s.action_receipts[i]? = some (id, md)) :
    s.append_action i a =
      some ({ s with action_receipts :=
                s.action_receipts.set i (id, { md with actions := md.actions ++ [a] }) },
            md.actions.length) := by
  simp [ReceiptManager.append_action, h]

/-- `append_action` on an absent index panics (`expect`), modelled as `none`. -/
theorem append_action_eq_none {s : ReceiptManager} {i : Nat} {a : Action}
    (h : s.action_receipts[i]? = none) : s.append_action i a = none := by
  simp [ReceiptManager.append_action, h]

/-- Frame conditions of a successful `append_action`: only the target receipt's
`actions` list changes, by appending the one action, and the returned index is
the action count before the push. -/
theorem append_action_spec {s s' : ReceiptManager} {i j : Nat} {a : Action}
    (h : s.append_action i a = some (s', j)) :
    j = (actionsAt s i).length ∧
    actionsAt s' i = actionsAt s i ++ [a] ∧
    (∀ k, k ≠ i → s'.action_receipts[k]? = s.action_receipts[k]?) ∧
    receiversOf s' = receiversOf s ∧
    (∀ k, outputAt s' k = outputAt s k) ∧
    (∀ k, inputAt s' k = inputAt s k) ∧
    s'.gas_weights = s.gas_weights ∧
    s'.action_receipts.length = s.action_receipts.length := by
  cases hv : s.action_receipts[i]? with
  | none => rw [append_action_eq_none hv] at h; exact absurd h (by simp)
  | some p =>
    obtain ⟨id, md⟩ := p
    have hi : i < s.action_receipts.length := by
      have := List.getElem?_eq_some_iff.mp hv
      exact this.1
    rw [append_action_eq_some hv] at h
    simp only [Option.some.injEq, Prod.mk.injEq] at h
    obtain ⟨hs, hj⟩ := h
    subst hs hj
    refine ⟨by simp [actionsAt, hv], ?_, ?_, ?_, ?_, ?_, rfl, by simp⟩
    · simp [actionsAt, getElem?_set_entry hi, hv]
    · intro k hk
      simp [getElem?_set_entry hi, hk]
    · exact map_fst_set hv
    · intro k
      rcases eq_or_ne k i with rfl | hk
      · simp [outputAt, getElem?_set_entry hi, hv]
      · simp [outputAt, getElem?_set_entry hi, hk]
    · intro k
      rcases eq_or_ne k i with rfl | hk
      · simp [inputAt, getElem?_set_entry hi, hv]
      · simp [inputAt, getElem?_set_entry hi, hk]

/-! Characterization of `create_receipt`. -/

/-- Frame conditions of the loop's one mutation step: only predecessor `i`'s
`output_data_receivers` changes, by one appended `DataReceiver`. -/
theorem push_data_receiver_spec {s : ReceiptManager} {i : Nat} {id : AccountId}
    {md : ReceiptMetadata} {d : CryptoHash} {rcv : AccountId}
    (hv : s.action_receipts[i]? = some (id, md)) :
    receiversOf (s.push_data_receiver i id md d rcv) = receiversOf s ∧
    (s.push_data_receiver i id md d rcv).action_receipts.length =
      s.action_receipts.length ∧
    (∀ j, actionsAt (s.push_data_receiver i id md d rcv) j = actionsAt s j) ∧
    (∀ j, inputAt (s.push_data_receiver i id md d rcv) j = inputAt s j) ∧
    (s.push_data_receiver i id md d rcv).gas_weights = s.gas_weights ∧
    (∀ j, outputAt (s.push_data_receiver i id md d rcv) j =
      outputAt s j ++ (if j = i then [⟨d, rcv⟩] else [])) := by
  have hi : i < s.action_receipts.length := (List.getElem?_eq_some_iff.mp hv).1
  refine ⟨map_fst_set hv, by simp [ReceiptManager.push_data_receiver], ?_, ?_, rfl, ?_⟩
  · intro j
    rcases eq_or_ne j i with rfl | hj
    · simp [actionsAt, ReceiptManager.push_data_receiver, getElem?_set_entry hi, hv]
    · simp [actionsAt, ReceiptManager.push_data_receiver, getElem?_set_entry hi, hj]
  · intro j
    rcases eq_or_ne j i with rfl | hj
    · simp [inputAt, ReceiptManager.push_data_receiver, getElem?_set_entry hi, hv]
    · simp [inputAt, ReceiptManager.push_data_receiver, getElem?_set_entry hi, hj]
  · intro j
    rcases eq_or_ne j i with rfl | hj
    · simp [outputAt, ReceiptManager.push_data_receiver, getElem?_set_entry hi, hv]
    · simp [outputAt, ReceiptManager.push_data_receiver, getElem?_set_entry hi, hj]

/-- The predecessor loop never changes the receiver column, the receipt count,
any receipt's `actions` or `input_data_ids`, or the gas-weight table —
regardless of whether it succeeds. -/
theorem create_receipt_loop_frame (rcv : AccountId) :
    ∀ (idxs : List Nat) (s : ReceiptManager) (acc : List CryptoHash),
      receiversOf (s.create_receipt_loop rcv acc idxs).1 = receiversOf s ∧
      (s.create_receipt_loop rcv acc idxs).1.action_receipts.length =
        s.action_receipts.length ∧
      (∀ j, actionsAt (s.create_receipt_loop rcv acc idxs).1 j = actionsAt s j) ∧
      (∀ j, inputAt (s.create_receipt_loop rcv acc idxs).1 j = inputAt s j) ∧
      (s.create_receipt_loop rcv acc idxs).1.gas_weights = s.gas_weights
  | [], s, acc => by simp [ReceiptManager.create_receipt_loop]
  | i :: rest, s, acc => by
    cases hv : s.action_receipts[i]? with
    | none => simp [ReceiptManager.create_receipt_loop, hv]
    | some p =>
      obtain ⟨id, md⟩ := p
      obtain ⟨hp1, hp2, hp3, hp4, hp5, _⟩ :=
        @push_data_receiver_spec s i id md CryptoHash.default rcv hv
      obtain ⟨ih1, ih2, ih3, ih4, ih5⟩ := create_receipt_loop_frame rcv rest
        (s.push_data_receiver i id md CryptoHash.default rcv)
        (acc ++ [CryptoHash.default])
      simp only [ReceiptManager.create_receipt_loop, hv]
      exact ⟨ih1.trans hp1, ih2.trans hp2,
        fun j => (ih3 j).trans (hp3 j), fun j => (ih4 j).trans (hp4 j), ih5.trans hp5⟩

/-- A successful run of the predecessor loop collects one (placeholder) data id
per listed index, in order, and appends one `DataReceiver` to a receipt's
`output_data_receivers` per occurrence of its index in the list. -/
theorem create_receipt_loop_ok (rcv : AccountId) :
    ∀ (idxs : List Nat) (s : ReceiptManager) (acc res : List CryptoHash)
      (s' : ReceiptManager),
      s.create_receipt_loop rcv acc idxs = (s', .ok res) →
      res = acc ++ idxs.map (fun _ => CryptoHash.default) ∧
      ∀ j, outputAt s' j =
        outputAt s j ++ List.replicate (idxs.count j) ⟨CryptoHash.default, rcv⟩
  | [], s, acc, res, s', h => by
    simp only [ReceiptManager.create_receipt_loop, Prod.mk.injEq, Except.ok.injEq] at h
    obtain ⟨rfl, rfl⟩ := h
    simp
  | i :: rest, s, acc, res, s', h => by
    cases hv : s.action_receipts[i]? with
    | none =>
      simp [ReceiptManager.create_receipt_loop, hv] at h
    | some p =>
      obtain ⟨id, md⟩ := p
      simp only [ReceiptManager.create_receipt_loop, hv] at h
      obtain ⟨_, _, _, _, _, hp6⟩ :=
        @push_data_receiver_spec s i id md CryptoHash.default rcv hv
      obtain ⟨ih1, ih2⟩ := create_receipt_loop_ok rcv rest
        (s.push_data_receiver i id md CryptoHash.default rcv)
        (acc ++ [CryptoHash.default]) res s' h
      constructor
      · rw [ih1]; simp
      · intro j
        rw [ih2 j, hp6 j, List.count_cons]
        rcases eq_or_ne j i with rfl | hj
        · simp [List.replicate_succ, List.append_assoc]
        · simp [hj, Ne.symm hj]

/-- When every listed index is in range, the predecessor loop succeeds. -/
theorem create_receipt_loop_ok_of_valid (rcv : AccountId) :
    ∀ (idxs : List Nat) (s : ReceiptManager) (acc : List CryptoHash),
      (∀ i ∈ idxs, i < s.action_receipts.length) →
      ∃ s' res, s.create_receipt_loop rcv acc idxs = (s', .ok res)
  | [], s, acc, _ => ⟨s, acc, by simp [ReceiptManager.create_receipt_loop]⟩
  | i :: rest, s, acc, hval => by
    have hi : i < s.action_receipts.length := hval i (by simp)
    have hv : s.action_receipts[i]? = some s.action_receipts[i] :=
      List.getElem?_eq_getElem hi
    obtain ⟨id, md, hpair⟩ : ∃ id md, s.action_receipts[i]? = some (id, md) :=
      ⟨s.action_receipts[i].1, s.action_receipts[i].2, by rw [hv]⟩
    obtain ⟨s', res, hrun⟩ := create_receipt_loop_ok_of_valid rcv rest
      (s.push_data_receiver i id md CryptoHash.default rcv)
      (acc ++ [CryptoHash.default])
      (by
        intro k hk
        have := ((@push_data_receiver_spec s i id md CryptoHash.default rcv hpair).2).1
        rw [this]
        exact hval k (by simp [hk]))
    exact ⟨s', res, by simp only [ReceiptManager.create_receipt_loop, hpair]; exact hrun⟩

/-- A successful `create_receipt`: the returned index is the pre-push length,
the new receipt is pushed with empty `output_data_receivers` and `actions` and
one collected id per predecessor in order, and prior receipts keep everything
except their `output_data_receivers`, which gain one entry per occurrence of
their index. -/
theorem create_receipt_ok {s s' : ReceiptManager} {idxs : List Nat}
    {rcv : AccountId} {n : Nat} (h : s.create_receipt idxs rcv = (s', .ok n)) :
    n = s.action_receipts.length ∧
    s'.action_receipts.length = n + 1 ∧
    s'.action_receipts[n]? = some (rcv, ⟨[], idxs.map (fun _ => CryptoHash.default), []⟩) ∧
    receiversOf s' = receiversOf s ++ [rcv] ∧
    s'.gas_weights = s.gas_weights ∧
    (∀ j, j < n → outputAt s' j =
      outputAt s j ++ List.replicate (idxs.count j) ⟨CryptoHash.default, rcv⟩) ∧
    (∀ j, j < n → actionsAt s' j = actionsAt s j ∧ inputAt s' j = inputAt s j) := by
  unfold ReceiptManager.create_receipt at h
  cases hloop : s.create_receipt_loop rcv [] idxs with
  | mk sl r =>
    cases r with
    | error e => rw [hloop] at h; simp at h
    | ok res =>
      rw [hloop] at h
      simp only [Prod.mk.injEq, Except.ok.injEq] at h
      obtain ⟨hs, hn⟩ := h
      obtain ⟨hf1, hf2, hf3, hf4, hf5⟩ := create_receipt_loop_frame rcv idxs s []
      rw [hloop] at hf1 hf2 hf3 hf4 hf5
      simp only at hf1 hf2 hf3 hf4 hf5
      obtain ⟨hres, hout⟩ := create_receipt_loop_ok rcv idxs s [] res sl hloop
      simp only [List.nil_append] at hres
      subst hres hn
      subst hs
      have hn' : sl.action_receipts.length = s.action_receipts.length := hf2
      refine ⟨hn', ?_, ?_, ?_, hf5, ?_, ?_⟩
      · simp
      · exact List.getElem?_concat_length sl.action_receipts _
      · simp only [receiversOf] at hf1 ⊢
        simp only [List.map_append, hf1]
        rfl
      · intro j hj
        have : outputAt { sl with action_receipts := sl.action_receipts ++
            [(rcv, (⟨[], idxs.map (fun _ => CryptoHash.default), []⟩ : ReceiptMetadata))] } j =
            outputAt sl j := by
          simp [outputAt, List.getElem?_append_left hj]
        rw [this, hout j]
      · intro j hj
        constructor
        · have : actionsAt { sl with action_receipts := sl.action_receipts ++
              [(rcv, (⟨[], idxs.map (fun _ => CryptoHash.default), []⟩ : ReceiptMetadata))] } j =
              actionsAt sl j := by
            simp [actionsAt, List.getElem?_append_left hj]
          rw [this, hf3 j]
        · have : inputAt { sl with action_receipts := sl.action_receipts ++
              [(rcv, (⟨[], idxs.map (fun _ => CryptoHash.default), []⟩ : ReceiptMetadata))] } j =
              inputAt sl j := by
            simp [inputAt, List.getElem?_append_left hj]
          rw [this, hf4 j]

/-- A failing `create_receipt` hands back the loop's (possibly partially
mutated) state: the receiver column, receipt count, every receipt's `actions`
and `input_data_ids`, and the gas-weight table are still unchanged. -/
theorem create_receipt_error {s s' : ReceiptManager} {idxs : List Nat}
    {rcv : AccountId} {e : HostError}
    (h : s.create_receipt idxs rcv = (s', .error e)) :
    receiversOf s' = receiversOf s ∧
    s'.action_receipts.length = s.action_receipts.length ∧
    (∀ j, actionsAt s' j = actionsAt s j) ∧
    (∀ j, inputAt s' j = inputAt s j) ∧
    s'.gas_weights = s.gas_weights := by
  unfold ReceiptManager.create_receipt at h
  cases hloop : s.create_receipt_loop rcv [] idxs with
  | mk sl r =>
    cases r with
    | ok res => rw [hloop] at h; simp at h
    | error e' =>
      rw [hloop] at h
      simp only [Prod.mk.injEq, Except.error.injEq] at h
      obtain ⟨hs, _⟩ := h
      obtain ⟨hf1, hf2, hf3, hf4, hf5⟩ := create_receipt_loop_frame rcv idxs s []
      rw [hloop] at hf1 hf2 hf3 hf4 hf5
      subst hs
      exact ⟨hf1, hf2, hf3, hf4, hf5⟩

/-! A uniform description of the `append_action_*` family: each member first
validates its arguments (never touching the state), then hands one constructed
action to `append_action`; `append_action_function_call_weight` additionally
pushes a gas-weight entry. -/

/-- The `gas_weight` argument of an operation (`some` only for
`functionCallWeight`). -/
def Op.weightArg : Op → Option Nat
  | .functionCallWeight _ _ _ _ _ w => some w
  | _ => none

/-- The argument validation an append operation performs before touching the
manager, and the action it constructs when validation succeeds. -/
def opValidated (env : Env) : Op → Except HostError Action
  | .createReceipt _ _ => .error .InvalidMethodName
  | .createAccount _ => .ok .CreateAccount
  | .deployContract _ code => .ok (.DeployContract code)
  | .functionCall _ mn args dep gas =>
    match env.from_utf8 mn with
    | none => .error .InvalidMethodName
    | some m => .ok (.FunctionCall m args gas dep)
  | .functionCallWeight _ mn args dep gas _ =>
    match env.from_utf8 mn with
    | none => .error .InvalidMethodName
    | some m => .ok (.FunctionCall m args gas dep)
  | .transfer _ dep => .ok (.Transfer dep)
  | .stake _ st pk =>
    match env.try_from_slice pk with
    | none => .error .InvalidPublicKey
    | some k => .ok (.Stake st k)
  | .addKeyFullAccess _ pk nonce =>
    match env.try_from_slice pk with
    | none => .error .InvalidPublicKey
    | some k => .ok (.AddKey k ⟨nonce, .FullAccess⟩)
  | .addKeyFunctionCall _ pk nonce allw rcv mns =>
    match env.try_from_slice pk with
    | none => .error .InvalidPublicKey
    | some k =>
      match env.decode_method_names mns with
      | .error e => .error e
      | .ok names => .ok (.AddKey k ⟨nonce, .FunctionCall ⟨allw, rcv, names⟩⟩)
  | .deleteKey _ pk =>
    match env.try_from_slice pk with
    | none => .error .InvalidPublicKey
    | some k => .ok (.DeleteKey k)
  | .deleteAccount _ b => .ok (.DeleteAccount b)

/-- The common shape of every append operation: report the validation error
without touching the state, or append the validated action (panicking as
`append_action` does) and, when a strictly positive weight was supplied,
record the gas-weight entry. -/
def wrapAppendW (s : ReceiptManager) (i : Nat) (v : Except HostError Action)
    (w? : Option Nat) : Option (ReceiptManager × Except HostError Unit) :=
  match v with
  | .error e => some (s, .error e)
  | .ok a =>
    match s.append_action i a with
    | none => none
    | some (s1, j) =>
      match w? with
      | some w =>
        if w > 0 then
          some ({ s1 with gas_weights := s1.gas_weights ++ [(⟨i, j⟩, w)] }, .ok ())
        else some (s1, .ok ())
      | none => some (s1, .ok ())

/-- Every append operation is an instance of the common shape. -/
theorem stepOp_append_eq (env : Env) (s : ReceiptManager) (op : Op)
    (ha : op.isAppend = true) :
    stepOp env s op = wrapAppendW s op.target (opValidated env op) op.weightArg := by
  cases op with
  | createReceipt idxs rcv => simp [Op.isAppend] at ha
  | createAccount i =>
    simp only [stepOp, Op.target, Op.weightArg, opValidated, wrapAppendW,
      ReceiptManager.append_action_create_account]
    all_goals cases s.append_action i .CreateAccount <;> rfl
  | deployContract i code =>
    simp only [stepOp, Op.target, Op.weightArg, opValidated, wrapAppendW,
      ReceiptManager.append_action_deploy_contract]
    all_goals cases s.append_action i (.DeployContract code) <;> rfl
  | functionCall i mn args dep gas =>
    simp only [stepOp, Op.target, Op.weightArg, opValidated,
      ReceiptManager.append_action_function_call]
    cases env.from_utf8 mn with
    | none => rfl
    | some m =>
      simp only [wrapAppendW]
      all_goals cases s.append_action i (.FunctionCall m args gas dep) <;> rfl
  | functionCallWeight i mn args dep gas w =>
    simp only [stepOp, Op.target, Op.weightArg, opValidated,
      ReceiptManager.append_action_function_call_weight]
    cases env.from_utf8 mn with
    | none => rfl
    | some m =>
      simp only [wrapAppendW]
      all_goals cases s.append_action i (.FunctionCall m args gas dep) <;> rfl
  | transfer i dep =>
    simp only [stepOp, Op.target, Op.weightArg, opValidated, wrapAppendW,
      ReceiptManager.append_action_transfer]
    all_goals cases s.append_action i (.Transfer dep) <;> rfl
  | stake i st pk =>
    simp only [stepOp, Op.target, Op.weightArg, opValidated,
      ReceiptManager.append_action_stake]
    cases env.try_from_slice pk with
    | none => rfl
    | some k =>
      simp only [wrapAppendW]
      all_goals cases s.append_action i (.Stake st k) <;> rfl
  | addKeyFullAccess i pk nonce =>
    simp only [stepOp, Op.target, Op.weightArg, opValidated,
      ReceiptManager.append_action_add_key_with_full_access]
    cases env.try_from_slice pk with
    | none => rfl
    | some k =>
      simp only [wrapAppendW]
      all_goals cases s.append_action i (.AddKey k ⟨nonce, .FullAccess⟩) <;> rfl
  | addKeyFunctionCall i pk nonce allw rcv mns =>
    simp only [stepOp, Op.target, Op.weightArg, opValidated,
      ReceiptManager.append_action_add_key_with_function_call]
    cases env.try_from_slice pk with
    | none => rfl
    | some k =>
      cases env.decode_method_names mns with
      | error e => rfl
      | ok names =>
        simp only [wrapAppendW]
        cases s.append_action i (.AddKey k ⟨nonce, .FunctionCall ⟨allw, rcv, names⟩⟩) <;> rfl
  | deleteKey i pk =>
    simp only [stepOp, Op.target, Op.weightArg, opValidated,
      ReceiptManager.append_action_delete_key]
    cases env.try_from_slice pk with
    | none => rfl
    | some k =>
      simp only [wrapAppendW]
      all_goals cases s.append_action i (.DeleteKey k) <;> rfl
  | deleteAccount i b =>
    simp only [stepOp, Op.target, Op.weightArg, opValidated, wrapAppendW,
      ReceiptManager.append_action_delete_account]
    all_goals cases s.append_action i (.DeleteAccount b) <;> rfl

/-- Case analysis of a non-panicking run of the common shape. -/
theorem wrapAppendW_cases {s : ReceiptManager} {i : Nat} {v : Except HostError Action}
    {w? : Option Nat} {s' : ReceiptManager} {r : Except HostError Unit}
    (h : wrapAppendW s i v w? = some (s', r)) :
    (∃ e, v = .error e ∧ s' = s ∧ r = .error e) ∨
    (∃ a s1 j, v = .ok a ∧ s.append_action i a = some (s1, j) ∧ r = .ok () ∧
      ((∃ w, w? = some w ∧ 0 < w ∧
         s' = { s1 with gas_weights := s1.gas_weights ++ [(⟨i, j⟩, w)] }) ∨
       ((w? = none ∨ w? = some 0) ∧ s' = s1))) := by
  cases v with
  | error e =>
    left
    simp only [wrapAppendW, Option.some.injEq, Prod.mk.injEq] at h
    exact ⟨e, rfl, h.1.symm, h.2.symm⟩
  | ok a =>
    right
    cases hap : s.append_action i a with
    | none => simp [wrapAppendW, hap] at h
    | some p =>
      obtain ⟨s1, j⟩ := p
      cases w? with
      | none =>
        simp only [wrapAppendW, hap, Option.some.injEq, Prod.mk.injEq] at h
        exact ⟨a, s1, j, rfl, hap, h.2.symm, .inr ⟨.inl rfl, h.1.symm⟩⟩
      | some w =>
        by_cases hw0 : w > 0
        · simp only [wrapAppendW, hap, if_pos hw0, Option.some.injEq, Prod.mk.injEq] at h
          exact ⟨a, s1, j, rfl, hap, h.2.symm, .inl ⟨w, rfl, hw0, h.1.symm⟩⟩
        · simp only [wrapAppendW, hap, if_neg hw0, Option.some.injEq, Prod.mk.injEq] at h
          have hw0' : w = 0 := by omega
          subst hw0'
          exact ⟨a, s1, j, rfl, hap, h.2.symm, .inr ⟨.inr rfl, h.1.symm⟩⟩

/-- The common shape panics exactly when validation succeeded and the receipt
index is absent. -/
theorem wrapAppendW_eq_none_iff {s : ReceiptManager} {i : Nat}
    {v : Except HostError Action} {w? : Option Nat} :
    wrapAppendW s i v w? = none ↔
      (∃ a, v = .ok a) ∧ s.action_receipts[i]? = none := by
  cases v with
  | error e => simp [wrapAppendW]
  | ok a =>
    cases hap : s.action_receipts[i]? with
    | none =>
      simp only [wrapAppendW, append_action_eq_none hap]
      simp [hap]
    | some p =>
      obtain ⟨id, md⟩ := p
      cases w? with
      | none => simp [wrapAppendW, append_action_eq_some hap, hap]
      | some w =>
        by_cases hw0 : w > 0
        · simp [wrapAppendW, append_action_eq_some hap, hap, hw0]
        · simp [wrapAppendW, append_action_eq_some hap, hap, hw0]

/-! Per-step and per-run trace lemmas. -/

/-- Append operations never register a created receiver. -/
theorem opCreated_isAppend {s : ReceiptManager} {op : Op} (ha : op.isAppend = true) :
    opCreated s op = [] := by
  cases op <;> first | rfl | simp [Op.isAppend] at ha

/-- Operations other than `functionCallWeight` never record gas-weight entries. -/
theorem opWeightEntries_eq_nil {env : Env} {s : ReceiptManager} {op : Op}
    (hw : op.weightArg = none) : opWeightEntries env s op = [] := by
  cases op <;> first | rfl | simp [Op.weightArg] at hw

/-- One non-panicking host call extends the receiver column by exactly the
receivers registered by a successful receipt creation. -/
theorem stepOp_receivers {env : Env} {s s' : ReceiptManager} {op : Op}
    {r : Except HostError Unit} (h : stepOp env s op = some (s', r)) :
    receiversOf s' = receiversOf s ++ opCreated s op := by
  cases ha : op.isAppend with
  | true =>
    rw [stepOp_append_eq env s op ha] at h
    rw [opCreated_isAppend ha, List.append_nil]
    rcases wrapAppendW_cases h with ⟨e, _, rfl, _⟩ | ⟨a, s1, j, _, hap, _, hcase⟩
    · rfl
    · have hrec := (append_action_spec hap).2.2.2.1
      rcases hcase with ⟨w, _, _, rfl⟩ | ⟨_, rfl⟩
      · exact hrec
      · exact hrec
  | false =>
    cases op with
    | createReceipt idxs rcv =>
      simp only [stepOp] at h
      cases hc : s.create_receipt idxs rcv with
      | mk s1 r1 =>
        rw [hc] at h
        simp only [Option.some.injEq, Prod.mk.injEq] at h
        obtain ⟨rfl, _⟩ := h
        cases r1 with
        | ok n =>
          rw [(create_receipt_ok hc).2.2.2.1]
          simp [opCreated, hc]
        | error e =>
          rw [(create_receipt_error hc).1]
          simp [opCreated, hc]
    | createAccount i => simp [Op.isAppend] at ha
    | deployContract i code => simp [Op.isAppend] at ha
    | functionCall i mn args dep gas => simp [Op.isAppend] at ha
    | functionCallWeight i mn args dep gas w => simp [Op.isAppend] at ha
    | transfer i dep => simp [Op.isAppend] at ha
    | stake i st pk => simp [Op.isAppend] at ha
    | addKeyFullAccess i pk nonce => simp [Op.isAppend] at ha
    | addKeyFunctionCall i pk nonce allw rcv mns => simp [Op.isAppend] at ha
    | deleteKey i pk => simp [Op.isAppend] at ha
    | deleteAccount i b => simp [Op.isAppend] at ha

/-- A non-panicking append operation without a positive weight argument leaves
the gas-weight table unchanged. -/
theorem stepOp_gas_of_no_weight {env : Env} {s s' : ReceiptManager} {op : Op}
    {r : Except HostError Unit} (ha : op.isAppend = true) (hw : op.weightArg = none)
    (h : stepOp env s op = some (s', r)) :
    s'.gas_weights = s.gas_weights := by
  rw [stepOp_append_eq env s op ha] at h
  rcases wrapAppendW_cases h with ⟨e, _, rfl, _⟩ | ⟨a, s1, j, _, hap, _, hcase⟩
  · rfl
  · rcases hcase with ⟨w, hww, _, rfl⟩ | ⟨_, rfl⟩
    · rw [hw] at hww; exact absurd hww (by simp)
    · exact (append_action_spec hap).2.2.2.2.2.2.1

/-- One non-panicking host call extends the gas-weight table by exactly the
entries it records. -/
theorem stepOp_gas_weights {env : Env} {s s' : ReceiptManager} {op : Op}
    {r : Except HostError Unit} (h : stepOp env s op = some (s', r)) :
    s'.gas_weights = s.gas_weights ++ opWeightEntries env s op := by
  cases op with
  | createReceipt idxs rcv =>
    simp only [stepOp] at h
    cases hc : s.create_receipt idxs rcv with
    | mk s1 r1 =>
      rw [hc] at h
      simp only [Option.some.injEq, Prod.mk.injEq] at h
      obtain ⟨rfl, _⟩ := h
      cases r1 with
      | ok n => rw [(create_receipt_ok hc).2.2.2.2.1]; simp [opWeightEntries]
      | error e => rw [(create_receipt_error hc).2.2.2.2]; simp [opWeightEntries]
  | functionCallWeight i mn args dep gas w =>
    simp only [stepOp, ReceiptManager.append_action_function_call_weight] at h
    cases hmn : env.from_utf8 mn with
    | none =>
      simp only [hmn, Option.some.injEq, Prod.mk.injEq] at h
      obtain ⟨rfl, _⟩ := h
      simp [opWeightEntries, hmn]
    | some m =>
      cases hv : s.action_receipts[i]? with
      | none => simp [hmn, append_action_eq_none hv] at h
      | some p =>
        obtain ⟨id, md⟩ := p
        simp only [hmn, append_action_eq_some hv] at h
        by_cases hw0 : w > 0
        · simp only [if_pos hw0, Option.some.injEq, Prod.mk.injEq] at h
          obtain ⟨rfl, _⟩ := h
          simp [opWeightEntries, hmn, hv, hw0]
        · simp only [if_neg hw0, Option.some.injEq, Prod.mk.injEq] at h
          obtain ⟨rfl, _⟩ := h
          simp [opWeightEntries, hmn, hv, hw0]
  | createAccount i =>
    rw [stepOp_gas_of_no_weight (by rfl) (by rfl) h]; simp [opWeightEntries]
  | deployContract i code =>
    rw [stepOp_gas_of_no_weight (by rfl) (by rfl) h]; simp [opWeightEntries]
  | functionCall i mn args dep gas =>
    rw [stepOp_gas_of_no_weight (by rfl) (by rfl) h]; simp [opWeightEntries]
  | transfer i dep =>
    rw [stepOp_gas_of_no_weight (by rfl) (by rfl) h]; simp [opWeightEntries]
  | stake i st pk =>
    rw [stepOp_gas_of_no_weight (by rfl) (by rfl) h]; simp [opWeightEntries]
  | addKeyFullAccess i pk nonce =>
    rw [stepOp_gas_of_no_weight (by rfl) (by rfl) h]; simp [opWeightEntries]
  | addKeyFunctionCall i pk nonce allw rcv mns =>
    rw [stepOp_gas_of_no_weight (by rfl) (by rfl) h]; simp [opWeightEntries]
  | deleteKey i pk =>
    rw [stepOp_gas_of_no_weight (by rfl) (by rfl) h]; simp [opWeightEntries]
  | deleteAccount i b =>
    rw [stepOp_gas_of_no_weight (by rfl) (by rfl) h]; simp [opWeightEntries]

/-- Along any non-panicking run, the receiver column is the starting column
followed by the receivers of the receipts the run created, in order. -/
theorem run_receivers (env : Env) :
    ∀ (ops : List Op) (s m : ReceiptManager), run env s ops = some m →
      receiversOf m = receiversOf s ++ createdReceivers env s ops
  | [], s, m, h => by
    simp only [run, Option.some.injEq] at h
    subst h
    simp [createdReceivers]
  | op :: ops, s, m, h => by
    cases hs : stepOp env s op with
    | none => simp [run, hs] at h
    | some p =>
      obtain ⟨s1, r⟩ := p
      simp only [run, hs] at h
      have ih := run_receivers env ops s1 m h
      rw [ih, stepOp_receivers hs]
      simp only [createdReceivers, hs]
      rw [List.append_assoc]

/-- Along any non-panicking run, the gas-weight table is the starting table
followed by the entries the run recorded, in order. -/
theorem run_gas_weights (env : Env) :
    ∀ (ops : List Op) (s m : ReceiptManager), run env s ops = some m →
      m.gas_weights = s.gas_weights ++ weightEntries env s ops
  | [], s, m, h => by
    simp only [run, Option.some.injEq] at h
    subst h
    simp [weightEntries]
  | op :: ops, s, m, h => by
    cases hs : stepOp env s op with
    | none => simp [run, hs] at h
    | some p =>
      obtain ⟨s1, r⟩ := p
      simp only [run, hs] at h
      have ih := run_gas_weights env ops s1 m h
      rw [ih, stepOp_gas_weights hs]
      simp only [weightEntries, hs]
      rw [List.append_assoc]

/-- `get_receipt_receiver` reads the receiver column. -/
theorem get_receipt_receiver_eq (s : ReceiptManager) (i : Nat) :
    s.get_receipt_receiver i = (receiversOf s)[i]? := by
  simp [ReceiptManager.get_receipt_receiver, receiversOf, List.getElem?_map]

/-- `decode_method_names` only ever fails with `InvalidMethodName`. -/
theorem decode_method_names_error {env : Env} :
    ∀ {mns : List (List UInt8)} {e : HostError},
      env.decode_method_names mns = .error e → e = .InvalidMethodName
  | [], e, h => by simp [Env.decode_method_names] at h
  | mn :: rest, e, h => by
    cases hm : env.from_utf8 mn with
    | none =>
      simp only [Env.decode_method_names, hm, Except.error.injEq] at h
      exact h.symm
    | some m =>
      simp only [Env.decode_method_names, hm] at h
      cases hr : env.decode_method_names rest with
      | error e' =>
        rw [hr] at h
        simp only [Except.map, Except.error.injEq] at h
        subst h
        exact decode_method_names_error hr
      | ok l => rw [hr] at h; simp [Except.map] at h

/-- Validation of an append operation only ever fails with `InvalidMethodName`
or `InvalidPublicKey`. -/
theorem opValidated_error {env : Env} {op : Op} {e : HostError}
    (ha : op.isAppend = true) (h : opValidated env op = .error e) :
    e = .InvalidMethodName ∨ e = .InvalidPublicKey := by
  cases op with
  | createReceipt idxs rcv => simp [Op.isAppend] at ha
  | createAccount i => simp [opValidated] at h
  | deployContract i code => simp [opValidated] at h
  | functionCall i mn args dep gas =>
    cases hm : env.from_utf8 mn <;> simp [opValidated, hm] at h <;> simp [h]
  | functionCallWeight i mn args dep gas w =>
    cases hm : env.from_utf8 mn <;> simp [opValidated, hm] at h <;> simp [h]
  | transfer i dep => simp [opValidated] at h
  | stake i st pk =>
    cases hk : env.try_from_slice pk <;> simp [opValidated, hk] at h <;> simp [h]
  | addKeyFullAccess i pk nonce =>
    cases hk : env.try_from_slice pk <;> simp [opValidated, hk] at h <;> simp [h]
  | addKeyFunctionCall i pk nonce allw rcv mns =>
    cases hk : env.try_from_slice pk with
    | none => simp only [opValidated, hk, Except.error.injEq] at h; simp [h.symm]
    | some k =>
      cases hd : env.decode_method_names mns with
      | error e' =>
        simp only [opValidated, hk, hd, Except.error.injEq] at h
        subst h
        exact .inl (decode_method_names_error hd)
      | ok names => simp [opValidated, hk, hd] at h
  | deleteKey i pk =>
    cases hk : env.try_from_slice pk <;> simp [opValidated, hk] at h <;> simp [h]
  | deleteAccount i b => simp [opValidated] at h

/-! The claims. -/

/-- Claim C1 (the code violates it): with one receipt `r0` (from
`create_receipt([], "alice")`), the call `create_receipt([0, 9999], "bob")`
does fail with `InvalidReceiptIndex 9999` and pushes no new receipt, but the
manager is NOT left as it was before the call: the valid predecessor `0`,
which appears before the invalid index, has already gained a `DataReceiver`
entry, because the source validates and mutates in one interleaved pass (the
`?` inside the loop) instead of pre-validating. -/
theorem claim_C1_code_bug :
    (((ReceiptManager.empty.create_receipt [] "alice").1.create_receipt
        [0, 9999] "bob").2 = .error (.InvalidReceiptIndex 9999)) ∧
    outputAt (ReceiptManager.empty.create_receipt [] "alice").1 0 = [] ∧
    outputAt ((ReceiptManager.empty.create_receipt [] "alice").1.create_receipt
        [0, 9999] "bob").1 0 = [⟨CryptoHash.default, "bob"⟩] ∧
    ((ReceiptManager.empty.create_receipt [] "alice").1.create_receipt
        [0, 9999] "bob").1.action_receipts.length = 1 := by decide

/-- Claim C2, counterexample: on a fresh manager (no receipts),
`append_action_transfer(0, 100)` hits the
`.expect("receipt index should be present")` panic in `append_action`
(modelled as `none`); it does not return an `InvalidReceiptIndex` error to the
caller. -/
theorem claim_C2_counterexample :
    ReceiptManager.empty.append_action_transfer 0 100 = none ∧
    ReceiptManager.empty.append_action_transfer 0 100 ≠
      some (ReceiptManager.empty, .error (.InvalidReceiptIndex 0)) := by decide

/-- Claim C2 (amended): an append operation on an out-of-range receipt index
either fails with its pre-append argument-validation error
(`InvalidMethodName`/`InvalidPublicKey`, state unchanged) or panics at the
`expect` in `append_action`; it never returns `InvalidReceiptIndex`. -/
theorem claim_C2_amended (env : Env) (s : ReceiptManager) (op : Op)
    (ha : op.isAppend = true) (hv : s.action_receipts.length ≤ op.target) :
    stepOp env s op = none ∨
    ∃ e, stepOp env s op = some (s, .error e) ∧
      (e = .InvalidMethodName ∨ e = .InvalidPublicKey) := by
  rw [stepOp_append_eq env s op ha]
  cases hval : opValidated env op with
  | error e =>
    right
    exact ⟨e, rfl, opValidated_error ha hval⟩
  | ok a =>
    left
    rw [wrapAppendW_eq_none_iff]
    exact ⟨⟨a, rfl⟩, List.getElem?_eq_none hv⟩

/-- Claim C2, witness for the amended statement at the counterexample's input. -/
theorem claim_C2_witness :
    stepOp testEnv ReceiptManager.empty (.transfer 0 100) = none ∨
    ∃ e, stepOp testEnv ReceiptManager.empty (.transfer 0 100) =
        some (ReceiptManager.empty, .error e) ∧
      (e = .InvalidMethodName ∨ e = .InvalidPublicKey) :=
  claim_C2_amended testEnv ReceiptManager.empty (.transfer 0 100) (by decide) (by decide)

/-- Claim C3 (the code violates it): after creating receipts `0` and `1`,
`create_receipt([0, 1], "carol")` mints one data identifier per predecessor
registration, but both are the placeholder `CryptoHash::default()` — the
commented-out `new_data_id()` next to a `TODO` in the source — so identifiers
minted for distinct registrations are equal, not unique within the execution. -/
theorem claim_C3_code_bug :
    outputAt (((ReceiptManager.empty.create_receipt [] "alice").1.create_receipt
        [] "bob").1.create_receipt [0, 1] "carol").1 0 =
      [⟨CryptoHash.default, "carol"⟩] ∧
    outputAt (((ReceiptManager.empty.create_receipt [] "alice").1.create_receipt
        [] "bob").1.create_receipt [0, 1] "carol").1 1 =
      [⟨CryptoHash.default, "carol"⟩] ∧
    inputAt (((ReceiptManager.empty.create_receipt [] "alice").1.create_receipt
        [] "bob").1.create_receipt [0, 1] "carol").1 2 =
      [CryptoHash.default, CryptoHash.default] := by decide

/-- Claim C4: for every sequence of operations on a fresh manager,
`get_receipt_receiver(i)` returns the receiver passed to the `create_receipt`
call that produced index `i`, for every `i` below the number of receipts
created so far, and returns nothing for every other `i`. (The operation is a
pure function of the state — the embedding of a `&self` method — so it has no
side effects.) -/
theorem claim_C4 (env : Env) (ops : List Op) (m : ReceiptManager)
    (h : run env ReceiptManager.empty ops = some m) (i : Nat) :
    m.get_receipt_receiver i = (createdReceivers env ReceiptManager.empty ops)[i]? := by
  rw [get_receipt_receiver_eq, run_receivers env ops ReceiptManager.empty m h]
  rfl

/-- The host-call stream of claim C4's witness. -/
def c4Ops : List Op :=
  [.createReceipt [] "alice", .transfer 0 7, .createReceipt [0] "bob"]

/-- The manager state reached by `c4Ops` on a fresh manager. -/
def c4M : ReceiptManager :=
  ⟨[("alice", ⟨[⟨CryptoHash.default, "bob"⟩], [], [.Transfer 7]⟩),
    ("bob", ⟨[], [CryptoHash.default], []⟩)], []⟩

/-- Claim C4, witness: the receiver of index 1 is the one passed to the second
`create_receipt` call. -/
theorem claim_C4_witness :
    c4M.get_receipt_receiver 1 = (createdReceivers testEnv ReceiptManager.empty c4Ops)[1]? :=
  claim_C4 testEnv c4Ops c4M (by decide) 1

/-- Claim C5: a successful `create_receipt` returns an index equal to the
length of `action_receipts` immediately before the push (indices are dense and
never reused or renumbered), and the pushed receipt has empty
`output_data_receivers`, empty `actions`, and `input_data_ids` holding exactly
one identifier per predecessor index, in listed order. -/
theorem claim_C5 (s s' : ReceiptManager) (idxs : List Nat) (rcv : AccountId)
    (n : Nat) (h : s.create_receipt idxs rcv = (s', .ok n)) :
    n = s.action_receipts.length ∧
    s'.action_receipts.length = n + 1 ∧
    s'.action_receipts[n]? =
      some (rcv, ⟨[], idxs.map (fun _ => CryptoHash.default), []⟩) ∧
    (idxs.map (fun _ => CryptoHash.default)).length = idxs.length :=
  ⟨(create_receipt_ok h).1, (create_receipt_ok h).2.1,
   (create_receipt_ok h).2.2.1, by simp⟩

/-- Claim C5, witness: creating a receipt with one predecessor on a
one-receipt manager returns index 1 and pushes the expected fresh receipt. -/
theorem claim_C5_witness :
    1 = ((ReceiptManager.empty.create_receipt [] "alice").1).action_receipts.length ∧
    (((ReceiptManager.empty.create_receipt [] "alice").1.create_receipt
        [0] "bob").1).action_receipts.length = 1 + 1 ∧
    (((ReceiptManager.empty.create_receipt [] "alice").1.create_receipt
        [0] "bob").1).action_receipts[1]? =
      some ("bob", ⟨[], ([0] : List Nat).map (fun _ => CryptoHash.default), []⟩) ∧
    (([0] : List Nat).map (fun _ => CryptoHash.default)).length =
      ([0] : List Nat).length :=
  claim_C5 (ReceiptManager.empty.create_receipt [] "alice").1
    ((ReceiptManager.empty.create_receipt [] "alice").1.create_receipt [0] "bob").1
    [0] "bob" 1 (by decide)

/-- Claim C6: after any sequence of operations on a fresh manager, the
`gas_weights` table holds exactly the entries recorded by successful
`append_action_function_call_weight` calls with strictly positive weight, each
keyed by the receipt index and the action index the call appended at — so a
zero-weight call records no entry — and a successful weighted call appends a
function-call action whose `gas` field is the literal `prepaid_gas`, for zero
and positive weights alike. -/
theorem claim_C6 (env : Env) (ops : List Op) (m : ReceiptManager)
    (h : run env ReceiptManager.empty ops = some m)
    (s s' : ReceiptManager) (i : Nat) (mn args : List UInt8) (dep pg w : Nat)
    (h2 : s.append_action_function_call_weight env i mn args dep pg w =
      some (s', .ok ())) :
    m.gas_weights = weightEntries env ReceiptManager.empty ops ∧
    ∃ str, env.from_utf8 mn = some str ∧
      actionsAt s' i = actionsAt s i ++ [.FunctionCall str args pg dep] := by
  constructor
  · have := run_gas_weights env ops ReceiptManager.empty m h
    simpa using this
  · unfold ReceiptManager.append_action_function_call_weight at h2
    cases hmn : env.from_utf8 mn with
    | none => simp [hmn] at h2
    | some str =>
      refine ⟨str, rfl, ?_⟩
      cases hap : s.append_action i (.FunctionCall str args pg dep) with
      | none => simp [hmn, hap] at h2
      | some p =>
        obtain ⟨s1, j⟩ := p
        have hact := (append_action_spec hap).2.1
        by_cases hw0 : w > 0
        · simp only [hmn, hap, if_pos hw0, Option.some.injEq, Prod.mk.injEq] at h2
          rw [← h2.1]
          exact hact
        · simp only [hmn, hap, if_neg hw0, Option.some.injEq, Prod.mk.injEq] at h2
          rw [← h2.1]
          exact hact

/-- The host-call stream of claim C6's witness: one weighted call with weight
5 and one with weight 0. -/
def c6Ops : List Op :=
  [.createReceipt [] "alice",
   .functionCallWeight 0 [102] [] 0 1000 5,
   .functionCallWeight 0 [102] [] 0 500 0]

/-- The manager state reached by `c6Ops` on a fresh manager: two function-call
actions, one weight entry. -/
def c6M : ReceiptManager :=
  ⟨[("alice", ⟨[], [], [.FunctionCall "f" [] 1000 0, .FunctionCall "f" [] 500 0]⟩)],
   [(⟨0, 0⟩, 5)]⟩

/-- The one-receipt state claim C6's witness appends to. -/
def c6S : ReceiptManager := ⟨[("alice", ⟨[], [], []⟩)], []⟩

/-- The state after the witness's weighted function call on `c6S`. -/
def c6S' : ReceiptManager :=
  ⟨[("alice", ⟨[], [], [.FunctionCall "f" [] 1000 0]⟩)], [(⟨0, 0⟩, 5)]⟩

/-- Claim C6, witness at the concrete stream `c6Ops` and a concrete weighted
call. -/
theorem claim_C6_witness :
    c6M.gas_weights = weightEntries testEnv ReceiptManager.empty c6Ops ∧
    ∃ str, testEnv.from_utf8 [102] = some str ∧
      actionsAt c6S' 0 = actionsAt c6S 0 ++ [.FunctionCall str [] 1000 0] :=
  claim_C6 testEnv c6Ops c6M (by decide) c6S c6S' 0 [102] [] 0 1000 5 (by decide)

/-- Claim C7: an append operation on a valid receipt index never panics; on
success exactly one fully-constructed action is appended and that receipt's
action count grows by exactly one; on failure the error is `InvalidMethodName`
or `InvalidPublicKey` and the manager's state — including the target receipt's
action list and the gas-weight table — is exactly as before the call. -/
theorem claim_C7 (env : Env) (s : ReceiptManager) (op : Op)
    (ha : op.isAppend = true) (hv : op.target < s.action_receipts.length) :
    ∃ s' r, stepOp env s op = some (s', r) ∧
      (∀ u, r = .ok u →
        ∃ a, opValidated env op = .ok a ∧
          actionsAt s' op.target = actionsAt s op.target ++ [a] ∧
          (actionsAt s' op.target).length = (actionsAt s op.target).length + 1) ∧
      (∀ e, r = .error e → s' = s ∧
        (e = .InvalidMethodName ∨ e = .InvalidPublicKey)) := by
  rw [stepOp_append_eq env s op ha]
  cases hstep : wrapAppendW s op.target (opValidated env op) op.weightArg with
  | none =>
    exfalso
    obtain ⟨_, hnone⟩ := wrapAppendW_eq_none_iff.mp hstep
    rw [List.getElem?_eq_none_iff] at hnone
    omega
  | some p =>
    obtain ⟨s', r⟩ := p
    refine ⟨s', r, rfl, ?_, ?_⟩
    · intro u hu
      subst hu
      rcases wrapAppendW_cases hstep with ⟨e, _, _, hre⟩ | ⟨a, s1, j0, hval, hap, _, hcase⟩
      · simp at hre
      · have hspec := append_action_spec hap
        rcases hcase with ⟨w, _, _, rfl⟩ | ⟨_, rfl⟩
        · refine ⟨a, hval, hspec.2.1, ?_⟩
          show (actionsAt s1 op.target).length = (actionsAt s op.target).length + 1
          rw [hspec.2.1]; simp
        · refine ⟨a, hval, hspec.2.1, ?_⟩
          rw [hspec.2.1]; simp
    · intro e he
      subst he
      rcases wrapAppendW_cases hstep with ⟨e', hval, rfl, hre⟩ | ⟨a, s1, j0, _, _, hok, _⟩
      · have he' : e = e' := by injection hre
        subst he'
        exact ⟨rfl, opValidated_error ha hval⟩
      · simp at hok

/-- Claim C7, witness at a concrete transfer on a valid index. -/
theorem claim_C7_witness :
    ∃ s' r, stepOp testEnv c6S (.transfer 0 9) = some (s', r) ∧
      (∀ u, r = .ok u →
        ∃ a, opValidated testEnv (.transfer 0 9) = .ok a ∧
          actionsAt s' (Op.transfer 0 9).target =
            actionsAt c6S (Op.transfer 0 9).target ++ [a] ∧
          (actionsAt s' (Op.transfer 0 9).target).length =
            (actionsAt c6S (Op.transfer 0 9).target).length + 1) ∧
      (∀ e, r = .error e → s' = c6S ∧
        (e = .InvalidMethodName ∨ e = .InvalidPublicKey)) :=
  claim_C7 testEnv c6S (.transfer 0 9) (by decide) (by decide)

/-- Claim C8: the internal `append_action` returns the index the action was
inserted at (the action count before the push), and appending `A1, A2, A3` in
that order to a receipt whose action list is empty yields `[A1, A2, A3]` at
action indices `0`, `1`, `2`: indices are dense, 0-based, strictly increasing
in append order and never reused. -/
theorem claim_C8 (s : ReceiptManager) (i : Nat) (a A1 A2 A3 : Action)
    (s' s1 s2 s3 : ReceiptManager) (j j1 j2 j3 : Nat)
    (h : s.append_action i a = some (s', j))
    (h0 : actionsAt s i = [])
    (h1 : s.append_action i A1 = some (s1, j1))
    (h2 : s1.append_action i A2 = some (s2, j2))
    (h3 : s2.append_action i A3 = some (s3, j3)) :
    (j = (actionsAt s i).length ∧ actionsAt s' i = actionsAt s i ++ [a]) ∧
    actionsAt s3 i = [A1, A2, A3] ∧ j1 = 0 ∧ j2 = 1 ∧ j3 = 2 := by
  have hs := append_action_spec h
  have hs1 := append_action_spec h1
  have hs2 := append_action_spec h2
  have hs3 := append_action_spec h3
  have e1 : actionsAt s1 i = [A1] := by rw [hs1.2.1, h0]; rfl
  have e2 : actionsAt s2 i = [A1, A2] := by rw [hs2.2.1, e1]; rfl
  have e3 : actionsAt s3 i = [A1, A2, A3] := by rw [hs3.2.1, e2]; rfl
  refine ⟨⟨hs.1, hs.2.1⟩, e3, ?_, ?_, ?_⟩
  · rw [hs1.1, h0]; rfl
  · rw [hs2.1, e1]; rfl
  · rw [hs3.1, e2]; rfl

/-- The states of claim C8's witness: a one-receipt manager and the three
states after appending a create-account, a transfer, and a delete-account. -/
def c8S0 : ReceiptManager := ⟨[("r", ⟨[], [], []⟩)], []⟩

/-- After appending `CreateAccount` to `c8S0`. -/
def c8S1 : ReceiptManager := ⟨[("r", ⟨[], [], [.CreateAccount]⟩)], []⟩

/-- After appending `Transfer 5` to `c8S1`. -/
def c8S2 : ReceiptManager := ⟨[("r", ⟨[], [], [.CreateAccount, .Transfer 5]⟩)], []⟩

/-- After appending `DeleteAccount "x"` to `c8S2`. -/
def c8S3 : ReceiptManager :=
  ⟨[("r", ⟨[], [], [.CreateAccount, .Transfer 5, .DeleteAccount "x"]⟩)], []⟩

/-- Claim C8, witness at three concrete appends. -/
theorem claim_C8_witness :
    (0 = (actionsAt c8S0 0).length ∧ actionsAt c8S1 0 = actionsAt c8S0 0 ++ [.CreateAccount]) ∧
    actionsAt c8S3 0 = [.CreateAccount, .Transfer 5, .DeleteAccount "x"] ∧
    0 = 0 ∧ 1 = 1 ∧ 2 = 2 :=
  claim_C8 c8S0 0 .CreateAccount .CreateAccount (.Transfer 5) (.DeleteAccount "x")
    c8S1 c8S1 c8S2 c8S3 0 0 1 2 (by decide) (by decide) (by decide) (by decide) (by decide)

/-- Claim C9: `create_receipt` accepts duplicate predecessor indices: with all
indices valid it succeeds, each receipt's `output_data_receivers` gains one
`DataReceiver` (carrying the new receipt's receiver) per occurrence of its
index, and the new receipt's `input_data_ids` gains one entry per occurrence,
in list order. -/
theorem claim_C9 (s : ReceiptManager) (idxs : List Nat) (rcv : AccountId)
    (hval : ∀ i ∈ idxs, i < s.action_receipts.length) :
    ∃ s' n, s.create_receipt idxs rcv = (s', .ok n) ∧
      (∀ j, j < s.action_receipts.length →
        outputAt s' j = outputAt s j ++
          List.replicate (idxs.count j) ⟨CryptoHash.default, rcv⟩) ∧
      inputAt s' n = idxs.map (fun _ => CryptoHash.default) ∧
      (idxs.map (fun _ => CryptoHash.default)).length = idxs.length := by
  obtain ⟨sl, res, hloop⟩ := create_receipt_loop_ok_of_valid rcv idxs s [] hval
  have hc : s.create_receipt idxs rcv =
      ({ sl with action_receipts := sl.action_receipts ++ [(rcv, ⟨[], res, []⟩)] },
       .ok sl.action_receipts.length) := by
    unfold ReceiptManager.create_receipt
    rw [hloop]
  have hok := create_receipt_ok hc
  refine ⟨_, _, hc, ?_, ?_, by simp⟩
  · intro j hj
    exact hok.2.2.2.2.2.1 j (by rw [hok.1]; exact hj)
  · simp [inputAt, hok.2.2.1]

/-- The two-receipt state of claim C9's witness. -/
def c9S : ReceiptManager := ⟨[("a", ⟨[], [], []⟩), ("b", ⟨[], [], []⟩)], []⟩

/-- Claim C9, witness with the duplicate predecessor list `[0, 0, 1]`. -/
theorem claim_C9_witness :
    ∃ s' n, c9S.create_receipt [0, 0, 1] "dana" = (s', .ok n) ∧
      (∀ j, j < c9S.action_receipts.length →
        outputAt s' j = outputAt c9S j ++
          List.replicate (([0, 0, 1] : List Nat).count j) ⟨CryptoHash.default, "dana"⟩) ∧
      inputAt s' n = ([0, 0, 1] : List Nat).map (fun _ => CryptoHash.default) ∧
      (([0, 0, 1] : List Nat).map (fun _ => CryptoHash.default)).length =
        ([0, 0, 1] : List Nat).length :=
  claim_C9 c9S [0, 0, 1] "dana" (by decide)

/-- Claim C10: a successful append modifies only the target receipt's action
list: every other receipt's entry is unchanged, every receipt's receiver,
`output_data_receivers` and `input_data_ids` are unchanged, and the gas-weight
table gains exactly the entries of the operation — so it is unchanged by every
append except `append_action_function_call_weight` with strictly positive
weight. -/
theorem claim_C10 (env : Env) (s s' : ReceiptManager) (op : Op)
    (ha : op.isAppend = true)
    (h : stepOp env s op = some (s', .ok ())) :
    (∀ j, j ≠ op.target → s'.action_receipts[j]? = s.action_receipts[j]?) ∧
    receiversOf s' = receiversOf s ∧
    (∀ j, outputAt s' j = outputAt s j) ∧
    (∀ j, inputAt s' j = inputAt s j) ∧
    s'.gas_weights = s.gas_weights ++ opWeightEntries env s op ∧
    ((∀ w, op.weightArg = some w → w = 0) → s'.gas_weights = s.gas_weights) := by
  have hgas := stepOp_gas_weights h
  rw [stepOp_append_eq env s op ha] at h
  rcases wrapAppendW_cases h with ⟨e, _, _, hre⟩ | ⟨a, s1, j0, _, hap, _, hcase⟩
  · simp at hre
  · have hspec := append_action_spec hap
    have hframe : (∀ j, j ≠ op.target → s'.action_receipts[j]? = s.action_receipts[j]?) ∧
        receiversOf s' = receiversOf s ∧ (∀ j, outputAt s' j = outputAt s j) ∧
        (∀ j, inputAt s' j = inputAt s j) := by
      rcases hcase with ⟨w, _, _, rfl⟩ | ⟨_, rfl⟩
      · exact ⟨fun j hj => hspec.2.2.1 j hj, hspec.2.2.2.1,
          fun j => hspec.2.2.2.2.1 j, fun j => hspec.2.2.2.2.2.1 j⟩
      · exact ⟨fun j hj => hspec.2.2.1 j hj, hspec.2.2.2.1,
          fun j => hspec.2.2.2.2.1 j, fun j => hspec.2.2.2.2.2.1 j⟩
    refine ⟨hframe.1, hframe.2.1, hframe.2.2.1, hframe.2.2.2, hgas, ?_⟩
    intro hz
    rw [hgas]
    suffices hnil : opWeightEntries env s op = [] by rw [hnil]; simp
    cases op with
    | functionCallWeight i mn args dep gas w =>
      have hw0 := hz w rfl
      subst hw0
      cases hmn : env.from_utf8 mn with
      | none => simp [opWeightEntries, hmn]
      | some m =>
        cases hvp : s.action_receipts[i]? with
        | none => simp [opWeightEntries, hmn, hvp]
        | some p =>
          obtain ⟨id, md⟩ := p
          simp [opWeightEntries, hmn, hvp]
    | createReceipt idxs rcv => rfl
    | createAccount i => rfl
    | deployContract i code => rfl
    | functionCall i mn args dep gas => rfl
    | transfer i dep => rfl
    | stake i st pk => rfl
    | addKeyFullAccess i pk nonce => rfl
    | addKeyFunctionCall i pk nonce allw rcv mns => rfl
    | deleteKey i pk => rfl
    | deleteAccount i b => rfl

/-- The state after the witness's transfer on `c9S`. -/
def c10S' : ReceiptManager :=
  ⟨[("a", ⟨[], [], [.Transfer 9]⟩), ("b", ⟨[], [], []⟩)], []⟩

/-- Claim C10, witness at a concrete transfer. -/
theorem claim_C10_witness :
    (∀ j, j ≠ (Op.transfer 0 9).target →
      c10S'.action_receipts[j]? = c9S.action_receipts[j]?) ∧
    receiversOf c10S' = receiversOf c9S ∧
    (∀ j, outputAt c10S' j = outputAt c9S j) ∧
    (∀ j, inputAt c10S' j = inputAt c9S j) ∧
    c10S'.gas_weights = c9S.gas_weights ++ opWeightEntries testEnv c9S (.transfer 0 9) ∧
    ((∀ w, (Op.transfer 0 9).weightArg = some w → w = 0) →
      c10S'.gas_weights = c9S.gas_weights) :=
  claim_C10 testEnv c9S c10S' (.transfer 0 9) (by decide) (by decide)

end NearPrimitives
